import Mathlib

/-!
Shallow embedding of `Date_to_calendar-local-html.py`, the parsing core of the
UniHD life-science-talks ICS exporter.  Python strings are modelled as
`List Char` internally (ASCII behaviour of the relevant `re` character
classes; the handful of non-ASCII characters the script treats specially —
en/em dash, middle dot, no-break space — are modelled explicitly).
Python `datetime` values are modelled as minutes since the civil epoch
(`daysFromCivil`, Gregorian calendar, as CPython's `datetime` implements
date arithmetic); the configured timezone is a constant offset for every
timestamp produced in one run, so wall-clock arithmetic and comparisons are
modelled directly on minutes.
-/

namespace LifeSci

/-- Word character of `re`'s `\b` / `\w` for ASCII text (`[A-Za-z0-9_]`). -/
def isWordChar (c : Char) : Bool :=
  c.isAlpha || c.isDigit || c = '_'

/-- Whitespace of `re`'s `\s` for ASCII text. -/
def isSpaceChar (c : Char) : Bool :=
  c = ' ' || c = '\t' || c = '\n' || c = '\r' || c = '\x0b' || c = '\x0c'

/-- Numeric value of a digit character. -/
def digitVal (c : Char) : Nat := c.toNat - '0'.toNat

/-- `str.strip()` (strip leading and trailing whitespace). -/
def stripWs (l : List Char) : List Char :=
  ((l.dropWhile isSpaceChar).reverse.dropWhile isSpaceChar).reverse

/-- `str.strip(chars)` for an explicit strip set. -/
def stripChars (chars : List Char) (l : List Char) : List Char :=
  ((l.dropWhile (chars.contains ·)).reverse.dropWhile (chars.contains ·)).reverse

/-- `re.sub(r"\s+", " ", ·)`: collapse every whitespace run to one space. -/
def collapseWs : List Char → List Char :=
  go false
where
  go : Bool → List Char → List Char
    | _, [] => []
    | prevSpace, c :: cs =>
      if isSpaceChar c then
        if prevSpace then go true cs else ' ' :: go true cs
      else c :: go false cs

/-- Case-insensitive match of `pat` as a prefix of `cs`; returns the rest. -/
def matchCI : List Char → List Char → Option (List Char)
  | [], cs => some cs
  | _ :: _, [] => none
  | p :: ps, c :: cs => if p.toLower = c.toLower then matchCI ps cs else none

/-- Does `needle` occur as a contiguous subsequence of `hay`?  (`in` on str.) -/
def containsSeq (needle : List Char) : List Char → Bool
  | [] => (matchCI needle []).isSome && needle = []
  | c :: cs => ((needle.isPrefixOf (c :: cs)) : Bool) || containsSeq needle cs

/-- `\b` holds after a match when the next char is not a word char (or end). -/
def boundaryOk : List Char → Bool
  | [] => true
  | c :: _ => !isWordChar c

/-- Try a list of case-insensitive alternatives (regex alternation order) at
the current position; each must be followed by a word boundary.  Returns the
matched length. -/
def altsMatchAt (alts : List (List Char)) (cs : List Char) : Option Nat :=
  alts.findSome? fun alt =>
    match matchCI alt cs with
    | some rest => if boundaryOk rest then some alt.length else none
    | none => none

/-- `re.sub` engine for patterns of the form `\b(alt|...)\b` where every
alternative starts and ends with a word char: scan left to right, tracking
whether the previous original char was a word char; replace each match and
resume after it (fuel = input length suffices). -/
def subScan (matchAt : List Char → Option Nat) (repl : List Char) :
    Nat → Bool → List Char → List Char
  | 0, _, cs => cs
  | _ + 1, _, [] => []
  | fuel + 1, prevW, c :: cs =>
    if prevW then c :: subScan matchAt repl fuel (isWordChar c) cs
    else
      match matchAt (c :: cs) with
      | some n =>
        if n = 0 then c :: subScan matchAt repl fuel (isWordChar c) cs
        else repl ++ subScan matchAt repl fuel true ((c :: cs).drop n)
      | none => c :: subScan matchAt repl fuel (isWordChar c) cs

def subWord (matchAt : List Char → Option Nat) (repl : List Char)
    (l : List Char) : List Char :=
  subScan matchAt repl (l.length + 1) false l

/-- `str.replace(old, new)`: all non-overlapping occurrences, left to right. -/
def replaceSub (old new : List Char) : Nat → List Char → List Char
  | 0, cs => cs
  | _ + 1, [] => []
  | fuel + 1, c :: cs =>
    if old.isPrefixOf (c :: cs) ∧ old ≠ [] then
      new ++ replaceSub old new fuel ((c :: cs).drop old.length)
    else c :: replaceSub old new fuel cs

def pyReplace (old new l : List Char) : List Char :=
  replaceSub old new (l.length + 1) l

/-- `str.split(sep)` for a single-char separator (keeps empty segments). -/
def splitOnChar (sep : Char) (l : List Char) : List (List Char) :=
  l.foldr
    (fun c acc =>
      match acc with
      | a :: rest => if c = sep then [] :: a :: rest else (c :: a) :: rest
      | [] => [[c]])
    [[]]

/-- `TZ_LABEL_PATTERN = \b(?:cet|cest|gmt|utc(?:[+\-]\d{1,2})?|mez|mesz)\b`,
matched at the current position in alternation order; the optional
`[+\-]\d{1,2}` suffix of `utc` is tried greedily (two digits, one digit,
absent), each with the trailing boundary check. -/
def tzMatchAt (cs : List Char) : Option Nat :=
  match altsMatchAt [['c','e','t'], ['c','e','s','t'], ['g','m','t']] cs with
  | some n => some n
  | none =>
    match matchCI ['u','t','c'] cs with
    | some rest =>
      match rest with
      | s :: d1 :: d2 :: r3 =>
        if (s = '+' ∨ s = '-') ∧ d1.isDigit ∧ d2.isDigit ∧ boundaryOk r3 then some 6
        else if (s = '+' ∨ s = '-') ∧ d1.isDigit ∧ boundaryOk (d2 :: r3) then some 5
        else if boundaryOk rest then some 3 else none
      | s :: d1 :: r2 =>
        if (s = '+' ∨ s = '-') ∧ d1.isDigit ∧ boundaryOk r2 then some 5
        else if boundaryOk rest then some 3 else none
      | _ => if boundaryOk rest then some 3 else none
    | none => altsMatchAt [['m','e','z'], ['m','e','s','z']] cs

/-- `EXTRA_LABEL_PATTERN = \b(?:hrs?|hours?|uhr|o'clock|h)\b` in alternation
(and greedy-optional) order. -/
def extraLabelMatchAt (cs : List Char) : Option Nat :=
  altsMatchAt
    [['h','r','s'], ['h','r'], ['h','o','u','r','s'], ['h','o','u','r'],
     ['u','h','r'], ['o', Char.ofNat 39, 'c','l','o','c','k'], ['h']] cs

/-- Meridiem marker (`am`/`pm`). -/
inductive Meridiem where
  | am : Meridiem
  | pm : Meridiem
deriving DecidableEq, Repr

/-- Try `MERIDIEM_PATTERN = (a\.?m\.?|p\.?m\.?)` (IGNORECASE) at the current
position; only whether the match is the `a` or `p` branch matters. -/
def meridiemMatchAt (cs : List Char) : Option Meridiem :=
  match cs with
  | c :: rest =>
    if c.toLower = 'a' then if meridiemTail rest then some .am else none
    else if c.toLower = 'p' then if meridiemTail rest then some .pm else none
    else none
  | [] => none
where
  /-- `\.?m` after the leading letter (the trailing `\.?` never fails). -/
  meridiemTail : List Char → Bool
    | '.' :: m :: _ => m.toLower = 'm'
    | m :: _ => m.toLower = 'm'
    | [] => false

/-- `extract_meridiem_label`: first match of `MERIDIEM_PATTERN`, reported as
`"pm"` when the matched text contains `p`, else `"am"`. -/
def extract_meridiem_label : List Char → Option Meridiem
  | [] => none
  | c :: cs =>
    match meridiemMatchAt (c :: cs) with
    | some m => some m
    | none => extract_meridiem_label cs

/-- `TIME_CORE_PATTERN = (?P<hour>\d{1,2})(?::(?P<minute>\d{2}))?`: search for
the first digit, take one or two digits greedily as the hour, then an optional
`:MM` (exactly two digits); a missing minute group reads as 0. -/
def timeCoreSearch : List Char → Option (Nat × Nat)
  | [] => none
  | c :: rest =>
    if c.isDigit then
      let (hour, after) :=
        match rest with
        | d :: r2 => if d.isDigit then (digitVal c * 10 + digitVal d, r2)
                     else (digitVal c, rest)
        | [] => (digitVal c, ([] : List Char))
      let minute :=
        match after with
        | ':' :: m1 :: m2 :: _ =>
          if m1.isDigit ∧ m2.isDigit then digitVal m1 * 10 + digitVal m2 else 0
        | _ => 0
      some (hour, minute)
    else timeCoreSearch rest

/-- `sanitize_time_fragment`. -/
def sanitize_time_fragment (fragment : List Char) : List Char :=
  let f := pyReplace ['p','.','m','.'] ['p','m'] fragment
  let f := pyReplace ['a','.','m','.'] ['a','m'] f
  let f := hBetweenDigits f
  let f := dotBetweenDigits f
  let f := subWord tzMatchAt [] f
  let f := subWord extraLabelMatchAt [] f
  let f := pyReplace ['m','i','d','d','a','y'] ['n','o','o','n'] f
  let f := pyReplace ['·'] [' '] f
  let f := f.map fun c => if c = '(' ∨ c = ')' then ' ' else c
  stripWs (collapseWs f)
where
  /-- `re.sub(r"(?<=\d)h(?=\d)", ":", ·, flags=IGNORECASE)`. -/
  hBetweenDigits : List Char → List Char
    | [] => []
    | [c] => [c]
    | a :: b :: cs =>
      if a.isDigit then
        match b, cs with
        | h, n :: _ =>
          if (h = 'h' ∨ h = 'H') ∧ n.isDigit then a :: ':' :: hBetweenDigits cs
          else a :: hBetweenDigits (b :: cs)
        | _, [] => [a, b]
      else a :: hBetweenDigits (b :: cs)
  /-- `re.sub(r"(?<=\d)\.(?=\d)", ":", ·)`. -/
  dotBetweenDigits : List Char → List Char
    | [] => []
    | [c] => [c]
    | a :: b :: cs =>
      if a.isDigit then
        match b, cs with
        | h, n :: _ =>
          if h = '.' ∧ n.isDigit then a :: ':' :: dotBetweenDigits cs
          else a :: dotBetweenDigits (b :: cs)
        | _, [] => [a, b]
      else a :: dotBetweenDigits (b :: cs)

/-- `convert_to_24_hour`. -/
def convert_to_24_hour (hour : Nat) (meridiem : Option Meridiem) : Nat :=
  let hour := hour % 24
  match meridiem with
  | none => hour
  | some .am => if hour = 12 then 0 else hour
  | some .pm => if hour = 12 then 12 else hour + 12

/-- Errors raised (`ValueError`) by the time-parsing core; the payload is the
text interpolated into the Python message. -/
inductive TimeErr where
  | emptyRange : List Char → TimeErr
  | unexpectedRange : List Char → TimeErr
  | emptyFragment : TimeErr
  | fragmentParse : List Char → TimeErr
  | invalidTime : TimeErr
deriving DecidableEq, Repr

/-- The meridiem-resolution step of `parse_time_fragment` (source lines
205–214): a fragment-local marker forces 12-hour preference and is
authoritative; the external default applies only when no marker was found,
12-hour preference is in effect, a default exists, and the hour is at most
12. -/
def resolve_meridiem (found default_meridiem : Option Meridiem)
    (prefer_12_hour : Bool) (hour : Nat) : Option Meridiem :=
  let prefer := if found.isSome then true else prefer_12_hour
  if found = none ∧ prefer ∧ default_meridiem.isSome ∧ hour ≤ 12 then
    default_meridiem
  else found

/-- `parse_time_fragment`. -/
def parse_time_fragment (fragment : List Char) (default_meridiem : Option Meridiem)
    (prefer_12_hour : Bool) : Except TimeErr (Nat × Nat) :=
  let sanitized := sanitize_time_fragment fragment
  if sanitized = [] then .error .emptyFragment
  else
    let lowered := sanitized.map Char.toLower
    if lowered = ['n','o','o','n'] then .ok (12, 0)
    else if lowered = ['m','i','d','n','i','g','h','t'] then .ok (0, 0)
    else
      match timeCoreSearch sanitized with
      | none => .error (.fragmentParse fragment)
      | some (hour, minute) =>
        .ok (convert_to_24_hour hour
          (resolve_meridiem (extract_meridiem_label sanitized) default_meridiem
            prefer_12_hour hour), minute)

/-- Calendar date, as `datetime.date`. -/
structure Date where
  year : Nat
  month : Nat
  day : Nat
deriving DecidableEq, Repr

/-- Days since 1970-01-01 of a civil (proleptic Gregorian) date — the date
arithmetic CPython's `datetime` implements.  All intermediate division
operands are non-negative for the years in `datetime`'s range, so Euclidean
division coincides with the reference algorithm. -/
def daysFromCivil (dt : Date) : Int :=
  let y : Int := if dt.month ≤ 2 then (dt.year : Int) - 1 else (dt.year : Int)
  let era : Int := (if 0 ≤ y then y else y - 399).ediv 400
  let yoe : Int := y - era * 400
  let mp : Int := if 2 < dt.month then (dt.month : Int) - 3 else (dt.month : Int) + 9
  let doy : Int := (153 * mp + 2).ediv 5 + (dt.day : Int) - 1
  let doe : Int := yoe * 365 + yoe.ediv 4 - yoe.ediv 100 + doy
  era * 146097 + doe - 719468

/-- A `datetime` as minutes since the civil epoch (constant-offset timezone,
so wall-clock arithmetic and comparison act directly on this value). -/
def mkDateTime (dt : Date) (hour minute : Nat) : Int :=
  daysFromCivil dt * 1440 + (((hour % 24) * 60 + minute : Nat) : Int)

/-- `assemble_datetime`: `datetime.time` validates `minute < 60` (a bad minute
raises `ValueError`, caught at row level); the hour is reduced mod 24 by the
source before constructing the `time`. -/
def assemble_datetime (event_date : Date) (hour minute : Nat) :
    Except TimeErr Int :=
  if 60 ≤ minute then .error .invalidTime
  else .ok (mkDateTime event_date hour minute)

/-- `DEFAULT_SINGLE_EVENT_DURATION = timedelta(hours=1)`, in minutes. -/
def DEFAULT_SINGLE_EVENT_DURATION : Int := 60

/-- Normalisation prefix of `parse_time_components` (connector words and
dashes to `-`, strip timezone and hour-unit labels, collapse whitespace,
strip outer spaces/dashes). -/
def normalizeTimeRange (time_range : List Char) : List Char :=
  let n := subWord (altsMatchAt [['t','o'], ['b','i','s']]) ['-'] time_range
  let n := pyReplace ['–'] ['-'] n
  let n := pyReplace ['—'] ['-'] n
  let n := subWord tzMatchAt [] n
  let n := subWord extraLabelMatchAt [] n
  stripChars [' ', '-'] (collapseWs n)

/-- `[part.strip() for part in normalized.split("-") if part.strip()]`. -/
def timeRangeParts (time_range : List Char) : List (List Char) :=
  ((splitOnChar '-' (normalizeTimeRange time_range)).map stripWs).filter (· ≠ [])

/-- `start_default = start_hint or end_hint` of the two-part branch. -/
def start_default (start_part end_part : List Char) : Option Meridiem :=
  match extract_meridiem_label start_part with
  | some m => some m
  | none => extract_meridiem_label end_part

/-- `end_default = end_hint or start_hint` of the two-part branch. -/
def end_default (start_part end_part : List Char) : Option Meridiem :=
  match extract_meridiem_label end_part with
  | some m => some m
  | none => extract_meridiem_label start_part

/-- `prefer_12_hour = bool(start_hint or end_hint)` of the two-part branch. -/
def prefer_flag (start_part end_part : List Char) : Bool :=
  (extract_meridiem_label start_part).isSome ||
    (extract_meridiem_label end_part).isSome

/-- One-part branch of `parse_time_components` (single time, default
duration); `start_hint = extract_meridiem_label(start_part)` is written
inline. -/
def parseOnePart (start_part : List Char) (event_date : Date) :
    Except TimeErr (Int × Int) :=
  match parse_time_fragment start_part (extract_meridiem_label start_part)
      (extract_meridiem_label start_part).isSome with
  | .error e => .error e
  | .ok (start_hour, start_minute) =>
    match assemble_datetime event_date start_hour start_minute with
    | .error e => .error e
    | .ok start_dt => .ok (start_dt, start_dt + DEFAULT_SINGLE_EVENT_DURATION)

/-- Two-part branch of `parse_time_components` (range with meridiem
propagation and midnight rollover). -/
def parseTwoParts (start_part end_part : List Char) (event_date : Date) :
    Except TimeErr (Int × Int) :=
  match parse_time_fragment start_part (start_default start_part end_part)
      (prefer_flag start_part end_part) with
  | .error e => .error e
  | .ok (start_hour, start_minute) =>
    match parse_time_fragment end_part (end_default start_part end_part)
        (prefer_flag start_part end_part) with
    | .error e => .error e
    | .ok (end_hour, end_minute) =>
      match assemble_datetime event_date start_hour start_minute with
      | .error e => .error e
      | .ok start_dt =>
        match assemble_datetime event_date end_hour end_minute with
        | .error e => .error e
        | .ok end_dt =>
          .ok (start_dt, if end_dt ≤ start_dt then end_dt + 1440 else end_dt)

/-- `parse_time_components`.  Note the source checks `len(parts) == 1`, then
`len(parts) < 2` (raise), and otherwise uses `parts[0], parts[1]` — three or
more parts fall into the two-part branch. -/
def parse_time_components (time_range : List Char) (event_date : Date) :
    Except TimeErr (Int × Int) :=
  if normalizeTimeRange time_range = [] then .error (.emptyRange time_range)
  else
    match timeRangeParts time_range with
    | [p] => parseOnePart p event_date
    | [] => .error (.unexpectedRange time_range)
    | p0 :: p1 :: _ => parseTwoParts p0 p1 event_date

/-! ### `strptime` subset

CPython's `_strptime` compiles each directive to a regex fragment, matches the
whole with backtracking and IGNORECASE, and rejects a match that does not
consume the entire string.  Parsers below return the list of candidate
(parses × rest) in backtracking-priority order; a run takes the first
candidate (the regex match) and requires its rest to be empty (the
"unconverted data remains" check).  `\s+` is matched greedily only — no
subsequent directive in the formats used here can match whitespace, so
giving characters back can never help. -/

/-- Candidate parses in backtracking priority order. -/
abbrev Px (α : Type) := List Char → List (α × List Char)

def pSeq {α β : Type} (p : Px α) (q : Px β) : Px (α × β) := fun cs =>
  (p cs).flatMap fun ar => ((q ar.2).map fun br => ((ar.1, br.1), br.2))

/-- `%d`: `(3[01]|[12]\d|0[1-9]|[1-9])`. -/
def pDay : Px Nat := fun cs =>
  (match cs with
   | '3' :: x :: r => if x = '0' ∨ x = '1' then [(30 + digitVal x, r)] else []
   | _ => []) ++
  (match cs with
   | a :: b :: r =>
     if (a = '1' ∨ a = '2') ∧ b.isDigit then [(digitVal a * 10 + digitVal b, r)]
     else []
   | _ => []) ++
  (match cs with
   | '0' :: b :: r => if b.isDigit ∧ b ≠ '0' then [(digitVal b, r)] else []
   | _ => []) ++
  (match cs with
   | a :: r => if a.isDigit ∧ a ≠ '0' then [(digitVal a, r)] else []
   | _ => [])

/-- `%m`: `(1[0-2]|0[1-9]|[1-9])`. -/
def pMonthNum : Px Nat := fun cs =>
  (match cs with
   | '1' :: x :: r =>
     if x = '0' ∨ x = '1' ∨ x = '2' then [(10 + digitVal x, r)] else []
   | _ => []) ++
  (match cs with
   | '0' :: b :: r => if b.isDigit ∧ b ≠ '0' then [(digitVal b, r)] else []
   | _ => []) ++
  (match cs with
   | a :: r => if a.isDigit ∧ a ≠ '0' then [(digitVal a, r)] else []
   | _ => [])

/-- `%Y`: `\d\d\d\d`. -/
def pYear4 : Px Nat := fun cs =>
  match cs with
  | a :: b :: c :: d :: r =>
    if a.isDigit ∧ b.isDigit ∧ c.isDigit ∧ d.isDigit then
      [(digitVal a * 1000 + digitVal b * 100 + digitVal c * 10 + digitVal d, r)]
    else []
  | _ => []

/-- `%y`: `\d\d`, mapped to 2000+yy for yy ≤ 68, else 1900+yy. -/
def pYear2 : Px Nat := fun cs =>
  match cs with
  | a :: b :: r =>
    if a.isDigit ∧ b.isDigit then
      let y := digitVal a * 10 + digitVal b
      [(if y ≤ 68 then 2000 + y else 1900 + y, r)]
    else []
  | _ => []

/-- Whitespace in a strptime format: `\s+`, greedy. -/
def pSpaces : Px Unit := fun cs =>
  match cs with
  | c :: rest => if isSpaceChar c then [((), rest.dropWhile isSpaceChar)] else []
  | [] => []

/-- A literal character in a strptime format. -/
def pLit (x : Char) : Px Unit := fun cs =>
  match cs with
  | c :: rest => if c = x then [((), rest)] else []
  | [] => []

/-- Month-name alternation (`%B`/`%b`): CPython sorts the names longest first
and matches case-insensitively. -/
def pMonthName (tbl : List (Nat × List Char)) : Px Nat := fun cs =>
  tbl.filterMap fun nm =>
    match matchCI nm.2 cs with
    | some rest => some (nm.1, rest)
    | none => none

/-- Full month names, longest first (stable on calendar order for ties), as
CPython's `TimeRE` builds the `%B` alternation. -/
def monthTableFull : List (Nat × List Char) :=
  [(9, "September".data), (2, "February".data), (11, "November".data),
   (12, "December".data), (1, "January".data), (10, "October".data),
   (8, "August".data), (3, "March".data), (4, "April".data),
   (6, "June".data), (7, "July".data), (5, "May".data)]

/-- Abbreviated month names (`%b`), all length 3. -/
def monthTableAbbr : List (Nat × List Char) :=
  [(1, "Jan".data), (2, "Feb".data), (3, "Mar".data), (4, "Apr".data),
   (5, "May".data), (6, "Jun".data), (7, "Jul".data), (8, "Aug".data),
   (9, "Sep".data), (10, "Oct".data), (11, "Nov".data), (12, "Dec".data)]

/-- `strftime("%B")`: full month name of a month number. -/
def monthFullName : Nat → String
  | 1 => "January" | 2 => "February" | 3 => "March" | 4 => "April"
  | 5 => "May" | 6 => "June" | 7 => "July" | 8 => "August"
  | 9 => "September" | 10 => "October" | 11 => "November" | 12 => "December"
  | _ => ""

/-- Run a format: take the regex engine's first match and require it to
consume the whole string. -/
def runP {α : Type} (p : Px α) (cs : List Char) : Option α :=
  match p cs with
  | [] => none
  | (a, r) :: _ => if r = [] then some a else none

/-- Gregorian leap year, as `datetime`. -/
def isLeap (y : Nat) : Bool :=
  y % 4 = 0 && (y % 100 ≠ 0 || y % 400 = 0)

def daysInMonth (y m : Nat) : Nat :=
  if m = 2 then (if isLeap y then 29 else 28)
  else if m = 4 ∨ m = 6 ∨ m = 9 ∨ m = 11 then 30
  else 31

/-- `datetime(year, month, day)` construction: `ValueError` outside
`MINYEAR..MAXYEAR` or the month's day range. -/
def mkValidDate (y m d : Nat) : Option Date :=
  if 1 ≤ y ∧ y ≤ 9999 ∧ 1 ≤ m ∧ m ≤ 12 ∧ 1 ≤ d ∧ d ≤ daysInMonth y m then
    some ⟨y, m, d⟩
  else none

/-- `strptime(c, "%B %Y")` / `"%b %Y"` (day defaults to 1). -/
def fmtMonthYear (tbl : List (Nat × List Char)) (cs : List Char) :
    Option (Nat × Nat) :=
  match runP (pSeq (pSeq (pMonthName tbl) pSpaces) pYear4) cs with
  | some ((m, _), y) => (mkValidDate y m 1).map fun _ => (m, y)
  | none => none

/-- `strptime(c, "%B %d %Y")` / `"%b %d %Y"`, then `.date()`. -/
def fmtMDY (tbl : List (Nat × List Char)) (cs : List Char) : Option Date :=
  match runP (pSeq (pSeq (pSeq (pSeq (pMonthName tbl) pSpaces) pDay) pSpaces) pYear4) cs with
  | some ((((m, _), d), _), y) => mkValidDate y m d
  | none => none

/-- `strptime(c, "%d %B %Y")` / `"%d %b %Y"`, then `.date()`. -/
def fmtDMY (tbl : List (Nat × List Char)) (cs : List Char) : Option Date :=
  match runP (pSeq (pSeq (pSeq (pSeq pDay pSpaces) (pMonthName tbl)) pSpaces) pYear4) cs with
  | some ((((d, _), m), _), y) => mkValidDate y m d
  | none => none

/-- `strptime(c, "%B %d")` / `"%b %d"` (year defaults to 1900, validated
there), then `.replace(year=current_year)` (validated again), `.date()`. -/
def fmtMD (tbl : List (Nat × List Char)) (currentYear : Nat) (cs : List Char) :
    Option Date :=
  match runP (pSeq (pSeq (pMonthName tbl) pSpaces) pDay) cs with
  | some ((m, _), d) => (mkValidDate 1900 m d).bind fun _ => mkValidDate currentYear m d
  | none => none

/-- `strptime(c, "%d %B")` / `"%d %b"` with the same year replacement. -/
def fmtDM (tbl : List (Nat × List Char)) (currentYear : Nat) (cs : List Char) :
    Option Date :=
  match runP (pSeq (pSeq pDay pSpaces) (pMonthName tbl)) cs with
  | some ((d, _), m) => (mkValidDate 1900 m d).bind fun _ => mkValidDate currentYear m d
  | none => none

/-- `strptime(c, "%d.%m.%Y")`, `.date()`. -/
def fmtDotY (cs : List Char) : Option Date :=
  match runP (pSeq (pSeq (pSeq (pSeq pDay (pLit '.')) pMonthNum) (pLit '.')) pYear4) cs with
  | some ((((d, _), m), _), y) => mkValidDate y m d
  | none => none

/-- `strptime(c, "%d.%m.%y")`, `.date()`. -/
def fmtDotY2 (cs : List Char) : Option Date :=
  match runP (pSeq (pSeq (pSeq (pSeq pDay (pLit '.')) pMonthNum) (pLit '.')) pYear2) cs with
  | some ((((d, _), m), _), y) => mkValidDate y m d
  | none => none

/-- `strptime(c, "%d.%m.")` (year defaults to 1900, validated), then
`.replace(year=current_year)` (validated again), `.date()`. -/
def fmtDot (currentYear : Nat) (cs : List Char) : Option Date :=
  match runP (pSeq (pSeq (pSeq pDay (pLit '.')) pMonthNum) (pLit '.')) cs with
  | some (((d, _), m), _) => (mkValidDate 1900 m d).bind fun _ => mkValidDate currentYear m d
  | none => none

/-- Leftmost match of `\b(20\d{2})\b`: at each position with a word boundary
before it, try `20` plus two digits plus a trailing boundary; otherwise move
on. -/
def findYear20xx : Nat → Bool → List Char → Option Nat
  | 0, _, _ => none
  | _ + 1, _, [] => none
  | fuel + 1, prevW, c :: cs =>
    if ¬ prevW then
      match c :: cs with
      | '2' :: '0' :: a :: b :: r =>
        if a.isDigit ∧ b.isDigit ∧ boundaryOk r then
          some (2000 + digitVal a * 10 + digitVal b)
        else findYear20xx fuel (isWordChar c) cs
      | _ => findYear20xx fuel (isWordChar c) cs
    else findYear20xx fuel (isWordChar c) cs

/-- `re.search(r"\b(20\d{2})\b", sanitized)`, as an `int`. -/
def searchYear (l : List Char) : Option Nat :=
  findYear20xx (l.length + 1) false l

/-- `str.split()` (split on whitespace runs, no empty tokens). -/
def splitWsTokens (l : List Char) : List (List Char) :=
  (splitOnChar ' ' (collapseWs l)).filter (· ≠ [])

/-- Token loop of `extract_month_and_year`: first token that parses as `%B`
or (on `ValueError`) `%b` wins; its year is the searched `20\d{2}` value or
the fallback. -/
def monthTokenScan (fallback_year : Nat) (sanitized : List Char) :
    List (List Char) → Option (String × Nat)
  | [] => none
  | t :: rest =>
    if stripChars ['.', ' '] t = [] then monthTokenScan fallback_year sanitized rest
    else
      match runP (pMonthName monthTableFull) (stripChars ['.', ' '] t) with
      | some m => some (monthFullName m, (searchYear sanitized).getD fallback_year)
      | none =>
        match runP (pMonthName monthTableAbbr) (stripChars ['.', ' '] t) with
        | some m => some (monthFullName m, (searchYear sanitized).getD fallback_year)
        | none => monthTokenScan fallback_year sanitized rest

/-- The sanitisation prefix of `extract_month_and_year`
(`re.sub(r"[–—,/]", " ", text).strip()` then whitespace
collapse). -/
def sanitizeHeading (text : List Char) : List Char :=
  collapseWs (stripWs
    (text.map fun c => if c = '–' ∨ c = '—' ∨ c = ',' ∨ c = '/' then ' ' else c))

/-- `extract_month_and_year`. -/
def extract_month_and_year (text : List Char) (fallback_year : Nat) :
    Option String × Nat :=
  if sanitizeHeading text = [] then (none, fallback_year)
  else
    match fmtMonthYear monthTableFull (sanitizeHeading text) with
    | some (m, y) => (some (monthFullName m), y)
    | none =>
      match fmtMonthYear monthTableAbbr (sanitizeHeading text) with
      | some (m, y) => (some (monthFullName m), y)
      | none =>
        match monthTokenScan fallback_year (sanitizeHeading text)
            (splitWsTokens (sanitizeHeading text)) with
        | some (mn, y) => (some mn, y)
        | none =>
          match searchYear (sanitizeHeading text) with
          | some y => (none, y)
          | none => (none, fallback_year)

/-- Weekday-name alternation of `parse_date`'s cleanup regex. -/
def weekdayMatchAt (cs : List Char) : Option Nat :=
  altsMatchAt
    [ "Monday".data, "Tuesday".data, "Wednesday".data, "Thursday".data,
      "Friday".data, "Saturday".data, "Sunday".data] cs

/-- The cleanup pipeline of `parse_date`. -/
def dateClean (date_text : List Char) : List Char :=
  let c := date_text.map fun ch => if ch = '\u00A0' ∨ ch = ',' then ' ' else ch
  let c := collapseWs (stripWs c)
  let c := stripWs (subWord weekdayMatchAt [] c)
  collapseWs c

/-- `int(cleaned)` for an all-digit string. -/
def digitsToNat (l : List Char) : Nat :=
  l.foldl (fun a c => a * 10 + digitVal c) 0

/-- One candidate string against every format family, in source order:
year formats, no-year formats (context year injected), dotted formats. -/
def tryDateCandidate (currentYear : Nat) (c : List Char) : Option Date :=
  (fmtMDY monthTableFull c).orElse fun _ =>
  (fmtMDY monthTableAbbr c).orElse fun _ =>
  (fmtDMY monthTableFull c).orElse fun _ =>
  (fmtDMY monthTableAbbr c).orElse fun _ =>
  (fmtMD monthTableFull currentYear c).orElse fun _ =>
  (fmtMD monthTableAbbr currentYear c).orElse fun _ =>
  (fmtDM monthTableFull currentYear c).orElse fun _ =>
  (fmtDM monthTableAbbr currentYear c).orElse fun _ =>
  (fmtDotY c).orElse fun _ =>
  (fmtDotY2 c).orElse fun _ =>
  fmtDot currentYear c

/-- Truthiness of the optional month name (`None` and `""` are falsy). -/
def pyTruthyMonth : Option String → Bool
  | none => false
  | some s => s.data ≠ []

/-- `parse_date`.  Errors are the `ValueError` messages that escape it (the
source interpolates the offending text in quotes; the quotes are omitted
here). -/
def parse_date (date_text : List Char) (current_month_name : Option String)
    (current_year : Nat) : Except String Date :=
  let cleaned := dateClean date_text
  if cleaned = [] then .error "Date text is empty"
  else
    let candidates :=
      (match current_month_name with
       | some mn =>
         if mn.data ≠ [] ∧
             ¬ containsSeq (mn.data.map Char.toLower) (cleaned.map Char.toLower) then
           [mn.data ++ ' ' :: cleaned]
         else []
       | none => []) ++ [cleaned]
    match candidates.findSome? (tryDateCandidate current_year) with
    | some d => .ok d
    | none =>
      if cleaned.all Char.isDigit ∧ pyTruthyMonth current_month_name then
        match runP (pMonthName monthTableFull)
            ((current_month_name.getD "").data) with
        | some m =>
          match mkValidDate current_year m (digitsToNat cleaned) with
          | some d => .ok d
          | none => .error "day is out of range for month"
        | none => .error "time data does not match format %B"
      else .error ("Unable to parse date " ++ String.mk date_text)

/-! ### Event assembly and the main row loop -/

/-- Digits of a natural number, fuel-structured so it evaluates by
reduction (`n + 1` fuel always suffices, since `n / 10 < n` for `n ≥ 10`). -/
def natCharsAux : Nat → Nat → List Char
  | 0, _ => []
  | fuel + 1, n =>
    if n < 10 then [Nat.digitChar n]
    else natCharsAux fuel (n / 10) ++ [Nat.digitChar (n % 10)]

/-- Digits of a natural number (`str(n)` for the f-strings of
`format_duration`). -/
def natChars (n : Nat) : List Char := natCharsAux (n + 1) n

/-- `str(i)` for an integer. -/
def intChars (i : Int) : List Char :=
  if i < 0 then '-' :: natChars i.natAbs else natChars i.toNat

/-- `" ".join`/`"\n".join` style separator join. -/
def joinSep (sep : Char) : List (List Char) → List Char
  | [] => []
  | [x] => x
  | x :: xs => x ++ sep :: joinSep sep xs

/-- The `parts` list of `format_duration`: `hours, minutes =
divmod(total_minutes, 60)`; an `"{hours}h"` part when `hours` is non-zero,
then an `"{minutes}m"` part when `minutes` is non-zero `or not parts`.
Python `divmod` floors, which for the positive divisor 60 is Euclidean
division. -/
def format_duration_parts (delta : Int) : List (List Char) :=
  (if delta.ediv 60 ≠ 0 then [intChars (delta.ediv 60) ++ ['h']] else []) ++
  (if delta.emod 60 ≠ 0 ∨
      (if delta.ediv 60 ≠ 0 then [intChars (delta.ediv 60) ++ ['h']]
       else ([] : List (List Char))) = [] then
    [intChars (delta.emod 60) ++ ['m']]
  else [])

/-- `format_duration`: the timedelta is whole minutes here (every timestamp
is built from hours and minutes), so `int(total_seconds() // 60)` is the
minute value itself. -/
def format_duration (delta : Int) : List Char :=
  joinSep ' ' (format_duration_parts delta)

/-- `build_description` (chunks joined by newlines, each included only when
non-empty). -/
def build_description (speaker venue link duration_text : String) : String :=
  let chunks : List (List Char) :=
    (if speaker.data = [] then [] else ["Speaker: ".data ++ speaker.data]) ++
    (if venue.data = [] then [] else ["Venue: ".data ++ venue.data]) ++
    (if link.data = [] then [] else ["Link: ".data ++ link.data]) ++
    (if duration_text.data = [] then [] else ["Duration: ".data ++ duration_text.data])
  ⟨joinSep '\n' chunks⟩

/-- `clean_text`: `" ".join(node.stripped_strings)` (a cell is modelled as
its list of stripped strings). -/
def clean_text (node : List String) : String :=
  ⟨joinSep ' ' (node.map String.data)⟩

/-- `looks_like_time_range`. -/
def looks_like_time_range (text : String) : Bool :=
  let lowered := text.data.map Char.toLower
  if (text.data.any fun c => c = '-' ∨ c = '–' ∨ c = '—') ∧
      text.data.any Char.isDigit then true
  else if containsSeq " to ".data lowered ∨ containsSeq " bis ".data lowered then
    true
  else false

/-- A table row after HTML extraction: the `stripped_strings` of each `td`,
the stripped texts of the row's `strong` tags, and the `href` of the first
`a[href]` (if any). -/
structure Row where
  cells : List (List String)
  strongTexts : List String
  link : Option String
deriving DecidableEq, Repr

/-- An `ics.Event` as `main` populates it. -/
structure PEvent where
  name : String
  begin : Int
  «end» : Int
  description : String
  location : Option String
  url : Option String
deriving DecidableEq, Repr

/-- The mutable state of `main`'s row loop. -/
structure MainState where
  current_month_name : Option String
  current_year : Nat
  events : List PEvent
  created_events : Nat
  skipped_details : List String
deriving DecidableEq, Repr

/-- The human-readable message of a time-parsing `ValueError` (the source
quotes the interpolated text; quotes omitted here). -/
def timeErrText : TimeErr → String
  | .emptyRange s => "Empty time range: " ++ String.mk s
  | .unexpectedRange s => "Unexpected time range: " ++ String.mk s
  | .emptyFragment => "Empty time fragment"
  | .fragmentParse s => "Could not parse time from " ++ String.mk s
  | .invalidTime => "minute must be in 0..59"

/-- Heading-row tracker update: one `strong` text of a heading row
(`extract_month_and_year`, then the two conditional assignments). -/
def updateTracker (p : Option String × Nat) (text : String) :
    Option String × Nat :=
  let (month_candidate, year_candidate) := extract_month_and_year text.data p.2
  let year := if year_candidate ≠ p.2 then year_candidate else p.2
  let month :=
    match month_candidate with
    | some mn => if mn.data ≠ [] then some mn else p.1
    | none => p.1
  (month, year)

/-- What `main`'s loop body decides for one row. -/
inductive RowOutcome where
  | skipSilent : RowOutcome
  | heading : Option String → Nat → RowOutcome
  | skipLogged : String → RowOutcome
  | success : PEvent → RowOutcome
deriving DecidableEq, Repr

/-- `date_strings = list(cells[0].stripped_strings)`. -/
def rowDateStrings (row : Row) : List String :=
  row.cells.headD []

/-- `joined_date = " ".join(date_strings)`. -/
def rowJoinedDate (row : Row) : List Char :=
  joinSep ' ' ((rowDateStrings row).map String.data)

/-- `date_token = next((v for v in date_strings if any digit), date_strings[0])`. -/
def rowDateToken (row : Row) : String :=
  ((rowDateStrings row).find? fun v => v.data.any Char.isDigit).getD
    ((rowDateStrings row).headD "")

/-- `date_index = date_strings.index(date_token)` (`0` on `ValueError`). -/
def rowDateIndex (row : Row) : Nat :=
  ((rowDateStrings row).findIdx? (· = rowDateToken row)).getD 0

/-- `trailing_strings = date_strings[date_index + 1:]`. -/
def rowTrailing (row : Row) : List String :=
  (rowDateStrings row).drop (rowDateIndex row + 1)

/-- `time_candidates`, including the any-digit fallback. -/
def rowTimeCandidates (row : Row) : List String :=
  if (rowTrailing row).filter looks_like_time_range = [] then
    if ((rowTrailing row).find? fun v => v.data.any Char.isDigit).getD "" ≠ "" then
      [((rowTrailing row).find? fun v => v.data.any Char.isDigit).getD ""]
    else []
  else (rowTrailing row).filter looks_like_time_range

/-- `time_text = time_candidates[0]`. -/
def rowTimeText (row : Row) : String :=
  (rowTimeCandidates row).headD ""

/-- `title = clean_text(cells[2]) if len(cells) > 2 else ""`. -/
def rowTitle (row : Row) : String :=
  if row.cells.length > 2 then clean_text (row.cells.getD 2 []) else ""

/-- `speaker = clean_text(cells[4]) if len(cells) > 4 else ""`. -/
def rowSpeaker (row : Row) : String :=
  if row.cells.length > 4 then clean_text (row.cells.getD 4 []) else ""

/-- `venue = clean_text(cells[6]) if len(cells) > 6 else
(clean_text(cells[-1]) if len(cells) else "")`. -/
def rowVenue (row : Row) : String :=
  if row.cells.length > 6 then clean_text (row.cells.getD 6 [])
  else if row.cells.length ≠ 0 then clean_text (row.cells.getLastD [])
  else ""

/-- `link = link_tag.get("href", "") if link_tag else ""`. -/
def rowLink (row : Row) : String :=
  row.link.getD ""

/-- The `Event` built for a successful data row (name, times, description,
optional location and URL). -/
def buildRowEvent (row : Row) (start_dt end_dt : Int) : PEvent :=
  { name := if rowTitle row = "" then "Untitled Event" else rowTitle row
    begin := start_dt
    «end» := end_dt
    description := build_description (rowSpeaker row) (rowVenue row)
      (rowLink row) ⟨format_duration (end_dt - start_dt)⟩
    location := if rowVenue row ≠ "" then some (rowVenue row) else none
    url := if rowLink row ≠ "" then some (rowLink row) else none }

/-- The loop body of `main` for one row, as a decision (state application is
`processRow`). -/
def classifyRow (st : MainState) (row : Row) : RowOutcome :=
  if row.cells = [] then .skipSilent
  else if row.strongTexts ≠ [] ∧ row.link = none then
    .heading
      (row.strongTexts.foldl updateTracker
        (st.current_month_name, st.current_year)).1
      (row.strongTexts.foldl updateTracker
        (st.current_month_name, st.current_year)).2
  else if rowDateStrings row = [] then .skipSilent
  else if ¬ (rowJoinedDate row).any Char.isDigit then .skipSilent
  else
    match parse_date (rowDateToken row).data st.current_month_name
        st.current_year with
    | .error msg =>
      .skipLogged ("date parse failed for " ++ rowDateToken row ++ ": " ++ msg)
    | .ok event_date =>
      if rowTimeCandidates row = [] then
        .skipLogged ("missing time range for date " ++ rowDateToken row)
      else
        match parse_time_components (rowTimeText row).data event_date with
        | .error e =>
          .skipLogged ("time parse failed for " ++ rowTimeText row ++ ": " ++
            timeErrText e)
        | .ok (start_dt, end_dt) => .success (buildRowEvent row start_dt end_dt)

/-- Apply one row's outcome to the loop state. -/
def processRow (st : MainState) (row : Row) : MainState :=
  match classifyRow st row with
  | .skipSilent => st
  | .heading m y => { st with current_month_name := m, current_year := y }
  | .skipLogged msg => { st with skipped_details := st.skipped_details ++ [msg] }
  | .success ev =>
    { st with events := st.events ++ [ev],
              created_events := st.created_events + 1 }

/-- Initial loop state of `main` (`current_year = datetime.now().year` is a
run parameter). -/
def initState (nowYear : Nat) : MainState :=
  { current_month_name := none, current_year := nowYear, events := [],
    created_events := 0, skipped_details := [] }

/-- The whole row loop of `main`. -/
def processRows (st : MainState) (rows : List Row) : MainState :=
  rows.foldl processRow st

/-! ### Helper lemmas -/

instance {ε α : Type} [DecidableEq ε] [DecidableEq α] :
    DecidableEq (Except ε α) := fun a b =>
  match a, b with
  | .error x, .error y =>
    if h : x = y then .isTrue (by rw [h]) else .isFalse (by simp [h])
  | .ok x, .ok y =>
    if h : x = y then .isTrue (by rw [h]) else .isFalse (by simp [h])
  | .error _, .ok _ => .isFalse (by simp)
  | .ok _, .error _ => .isFalse (by simp)

/-- A successfully assembled datetime lies within its event day. -/
theorem assemble_datetime_bounds {d : Date} {h m : Nat} {x : Int}
    (hx : assemble_datetime d h m = .ok x) :
    daysFromCivil d * 1440 ≤ x ∧ x < daysFromCivil d * 1440 + 1440 := by
  unfold assemble_datetime at hx
  split at hx
  · exact absurd hx (by simp)
  · rename_i hm
    have hx' : mkDateTime d h m = x := by
      simpa using hx
    subst hx'
    unfold mkDateTime
    have h1 : h % 24 < 24 := Nat.mod_lt _ (by omega)
    have h2 : m < 60 := by omega
    constructor <;> omega

/-- A successful assembly returns exactly `mkDateTime`. -/
theorem assemble_datetime_ok_eq {d : Date} {h m : Nat} {x : Int}
    (hx : assemble_datetime d h m = .ok x) : x = mkDateTime d h m := by
  unfold assemble_datetime at hx
  split at hx
  · exact absurd hx (by simp)
  · simpa using hx.symm

/-- The one-part branch always returns `start + 60`. -/
theorem parseOnePart_eq {p : List Char} {d : Date} {s e : Int}
    (h : parseOnePart p d = .ok (s, e)) : e = s + 60 := by
  unfold parseOnePart at h
  split at h
  · exact absurd h (by simp)
  · split at h
    · exact absurd h (by simp)
    · have := h
      simp only [Except.ok.injEq, Prod.mk.injEq] at this
      obtain ⟨hs, he⟩ := this
      subst hs; subst he; rfl

/-- The two-part branch always returns a strictly later end. -/
theorem parseTwoParts_lt {sp ep : List Char} {d : Date} {s e : Int}
    (h : parseTwoParts sp ep d = .ok (s, e)) : s < e := by
  unfold parseTwoParts at h
  split at h
  · exact absurd h (by simp)
  · split at h
    · exact absurd h (by simp)
    · split at h
      · exact absurd h (by simp)
      · rename_i hs_eq
        split at h
        · exact absurd h (by simp)
        · rename_i he_eq
          have hb1 := assemble_datetime_bounds hs_eq
          have hb2 := assemble_datetime_bounds he_eq
          simp only [Except.ok.injEq, Prod.mk.injEq] at h
          obtain ⟨h1, h2⟩ := h
          subst h1; subst h2
          split <;> omega

/-- Every success of `parse_time_components` has end strictly after start
(shared by the C1 and C9 developments). -/
theorem parse_time_components_lt {t : List Char} {d : Date} {s e : Int}
    (h : parse_time_components t d = .ok (s, e)) : s < e := by
  unfold parse_time_components at h
  split at h
  · exact absurd h (by simp)
  · split at h
    · have := parseOnePart_eq h; omega
    · exact absurd h (by simp)
    · exact parseTwoParts_lt h

/-! ### C6: 12→24-hour conversion policy -/

/-- C6: `convert_to_24_hour` first reduces the hour modulo 24; with no
meridiem the reduced hour is returned unchanged; with `am` hour 12 maps to 0
and every other hour is unchanged; with `pm` hour 12 maps to 12 and every
other hour has 12 added. -/
theorem c6_convert_to_24_hour_policy (hour : Nat) :
    convert_to_24_hour hour none = hour % 24 ∧
    convert_to_24_hour hour (some .am) =
      (if hour % 24 = 12 then 0 else hour % 24) ∧
    convert_to_24_hour hour (some .pm) =
      (if hour % 24 = 12 then 12 else hour % 24 + 12) :=
  ⟨rfl, rfl, rfl⟩

/-! ### C1: end strictly after start; midnight rollover -/

/-- C1 (amended): for every time-range text and event date on which
`parse_time_components` succeeds, the returned end timestamp is strictly
after the returned start timestamp; in the two-part case, whenever the
computed end is not strictly after the computed start on the event date,
exactly one day (1440 minutes) is added to the end; the spec's example
`"11pm - 1"` on 2024-05-01 yields start 2024-05-01T23:00 and end
2024-05-02T13:00 (the propagated `pm` resolves the bare `1` to 13:00 before
the rollover fires), not 2024-05-02T01:00 as the spec states. -/
theorem c1_end_after_start :
    (∀ t d s e, parse_time_components t d = .ok (s, e) → s < e) ∧
    (∀ sp ep d s e, parseTwoParts sp ep d = .ok (s, e) →
      ∃ he me,
        parse_time_fragment ep (end_default sp ep) (prefer_flag sp ep) =
          .ok (he, me) ∧
        ((mkDateTime d he me ≤ s ∧ e = mkDateTime d he me + 1440) ∨
         (s < mkDateTime d he me ∧ e = mkDateTime d he me))) ∧
    parse_time_components "11pm - 1".data ⟨2024, 5, 1⟩ =
      .ok (mkDateTime ⟨2024, 5, 1⟩ 23 0, mkDateTime ⟨2024, 5, 2⟩ 13 0) := by
  refine ⟨fun t d s e h => parse_time_components_lt h, ?_, by decide⟩
  intro sp ep d s e h
  unfold parseTwoParts at h
  split at h
  · exact absurd h (by simp)
  · split at h
    · exact absurd h (by simp)
    · rename_i hfrag
      split at h
      · exact absurd h (by simp)
      · rename_i hs_eq
        split at h
        · exact absurd h (by simp)
        · rename_i he_eq
          rename_i he me _ _ _ _
          simp only [Except.ok.injEq, Prod.mk.injEq] at h
          obtain ⟨h1, h2⟩ := h
          subst h1
          have hend := assemble_datetime_ok_eq he_eq
          subst hend
          refine ⟨he, me, hfrag, ?_⟩
          split at h2
          · exact Or.inl ⟨by assumption, h2.symm⟩
          · exact Or.inr ⟨by omega, h2.symm⟩

/-- C1 counterexample: the claimed example value is wrong — `"11pm - 1"` on
2024-05-01 parses with end 2024-05-02T13:00, not 2024-05-02T01:00. -/
theorem c1_counterexample :
    parse_time_components "11pm - 1".data ⟨2024, 5, 1⟩ =
      .ok (mkDateTime ⟨2024, 5, 1⟩ 23 0, mkDateTime ⟨2024, 5, 2⟩ 13 0) ∧
    mkDateTime ⟨2024, 5, 2⟩ 13 0 ≠ mkDateTime ⟨2024, 5, 2⟩ 1 0 :=
  ⟨by decide, by decide⟩

/-- C1 witness: the general part applied to `"11pm - 1"` on 2024-05-01. -/
theorem c1_witness :
    mkDateTime ⟨2024, 5, 1⟩ 23 0 < mkDateTime ⟨2024, 5, 2⟩ 13 0 :=
  c1_end_after_start.1 "11pm - 1".data ⟨2024, 5, 1⟩ _ _ (by decide)

/-! ### C2: meridiem propagation across a range -/

/-- C2: in the two-part branch, a meridiem marker found on exactly one side
becomes the default meridiem for both sides (in particular for the side
lacking one) and switches on 12-hour preference; hence `"2 - 3pm"` resolves
the start hour to 14, not 2. -/
theorem c2_meridiem_propagation :
    (∀ sp ep m, extract_meridiem_label sp = some m →
      extract_meridiem_label ep = none →
      start_default sp ep = some m ∧ end_default sp ep = some m ∧
        prefer_flag sp ep = true) ∧
    (∀ sp ep m, extract_meridiem_label sp = none →
      extract_meridiem_label ep = some m →
      start_default sp ep = some m ∧ end_default sp ep = some m ∧
        prefer_flag sp ep = true) ∧
    parse_time_components "2 - 3pm".data ⟨2024, 5, 1⟩ =
      .ok (mkDateTime ⟨2024, 5, 1⟩ 14 0, mkDateTime ⟨2024, 5, 1⟩ 15 0) := by
  refine ⟨?_, ?_, by decide⟩ <;> intro sp ep m h1 h2 <;>
    simp [start_default, end_default, prefer_flag, h1, h2]

/-- C2 witness: the propagation conjunct applied to the sides of
`"2 - 3pm"`. -/
theorem c2_witness :
    start_default "2".data "3pm".data = some .pm ∧
    end_default "2".data "3pm".data = some .pm ∧
    prefer_flag "2".data "3pm".data = true :=
  c2_meridiem_propagation.2.1 "2".data "3pm".data .pm (by decide) (by decide)

/-! ### C3: more than two dash-separated parts -/

/-- C3 counterexample: `"2-3-4"` normalizes to three non-empty parts, yet
`parse_time_components` succeeds (02:00–03:00) instead of failing with the
unexpected-range error. -/
theorem c3_counterexample :
    timeRangeParts "2-3-4".data = ["2".data, "3".data, "4".data] ∧
    parse_time_components "2-3-4".data ⟨2024, 5, 1⟩ =
      .ok (mkDateTime ⟨2024, 5, 1⟩ 2 0, mkDateTime ⟨2024, 5, 1⟩ 3 0) :=
  ⟨by decide, by decide⟩

/-- C3 (amended): when the text normalizes to more than two non-empty
dash-separated parts, `parse_time_components` does not fail — it parses the
first two parts as a two-part range and ignores the rest (the
`len(parts) < 2` guard makes the unexpected-range error unreachable for
non-empty normalized text). -/
theorem c3_extra_parts_use_first_two (t : List Char) (d : Date)
    (p0 p1 : List Char) (rest : List (List Char))
    (hp : timeRangeParts t = p0 :: p1 :: rest) :
    parse_time_components t d = parseTwoParts p0 p1 d := by
  unfold parse_time_components
  split
  · rename_i hn
    exfalso
    have hparts : timeRangeParts t = [] := by
      unfold timeRangeParts
      rw [hn]
      rfl
    rw [hp] at hparts
    exact absurd hparts (by simp)
  · rw [hp]

/-- C3 witness: the amended statement applied to `"2-3-4"`. -/
theorem c3_witness :
    parse_time_components "2-3-4".data ⟨2024, 5, 1⟩ =
      parseTwoParts "2".data "3".data ⟨2024, 5, 1⟩ :=
  c3_extra_parts_use_first_two "2-3-4".data ⟨2024, 5, 1⟩ "2".data "3".data
    ["4".data] (by decide)

/-! ### C4: single time gets the fixed default duration -/

/-- C4: a time text that normalizes to exactly one non-empty part and parses
successfully returns end = start + 60 minutes (the fixed one-hour default),
e.g. `"14:00"`. -/
theorem c4_single_time_one_hour :
    (∀ t d p s e, timeRangeParts t = [p] →
      parse_time_components t d = .ok (s, e) → e = s + 60) ∧
    parse_time_components "14:00".data ⟨2024, 5, 1⟩ =
      .ok (mkDateTime ⟨2024, 5, 1⟩ 14 0, mkDateTime ⟨2024, 5, 1⟩ 14 0 + 60) := by
  refine ⟨?_, by decide⟩
  intro t d p s e hp h
  unfold parse_time_components at h
  split at h
  · exact absurd h (by simp)
  · split at h
    · exact parseOnePart_eq h
    · rename_i heq
      rw [hp] at heq
      exact absurd heq (by simp)
    · rename_i heq
      rw [hp] at heq
      exact absurd heq (by simp)

/-- C4 witness: the general part applied to `"14:00"` on 2024-05-01. -/
theorem c4_witness :
    mkDateTime ⟨2024, 5, 1⟩ 14 0 + 60 = mkDateTime ⟨2024, 5, 1⟩ 14 0 + 60 :=
  c4_single_time_one_hour.1 "14:00".data ⟨2024, 5, 1⟩ "14:00".data _ _
    (by decide) (by decide)

/-! ### C10: guard on applying the external default meridiem -/

/-- C10: the externally supplied default meridiem is applied only when the
fragment carries no marker of its own, 12-hour preference is in effect, and
the extracted hour is at most 12 — and in exactly that case it is applied;
consequently `"14 - 3pm"` parses with start 14:00 (the propagated `pm` does
not shift the 24-hour start). -/
theorem c10_default_meridiem_guard :
    (∀ found dm p h, found.isSome → resolve_meridiem found dm p h = found) ∧
    (∀ dm h, resolve_meridiem none dm false h = none) ∧
    (∀ dm p h, 12 < h → resolve_meridiem none dm p h = none) ∧
    (∀ dm p h, p = true → h ≤ 12 →
      resolve_meridiem none (some dm) p h = some dm) ∧
    parse_time_components "14 - 3pm".data ⟨2024, 5, 1⟩ =
      .ok (mkDateTime ⟨2024, 5, 1⟩ 14 0, mkDateTime ⟨2024, 5, 1⟩ 15 0) := by
  refine ⟨?_, ?_, ?_, ?_, by decide⟩
  · intro found dm p h hf
    cases found with
    | none => exact absurd hf (by simp)
    | some m => simp [resolve_meridiem]
  · intro dm h
    simp [resolve_meridiem]
  · intro dm p h hh
    simp [resolve_meridiem]
    omega
  · intro dm p h hp hh
    subst hp
    simp [resolve_meridiem, hh]

/-- C10 witness: the positive and negative guard conjuncts at concrete
inputs (hour 14 blocks the default; hour 2 admits it). -/
theorem c10_witness :
    resolve_meridiem none (some .pm) true 14 = none ∧
    resolve_meridiem none (some .pm) true 2 = some .pm :=
  ⟨c10_default_meridiem_guard.2.2.1 (some .pm) true 14 (by decide),
   c10_default_meridiem_guard.2.2.2.1 .pm true 2 rfl (by decide)⟩

/-! ### C5: heading row sets the tracker; bare day token resolves -/

/-- C5: a heading row `"May 2024"` sets the tracker to month `"May"`, year
2024 (for any prior fallback year), and a subsequent data row's date token
`"7"` under that context parses to 2024-05-07. -/
theorem c5_heading_then_day_token :
    (∀ fy, extract_month_and_year "May 2024".data fy = (some "May", 2024)) ∧
    processRow (initState 2025)
        { cells := [[]], strongTexts := ["May 2024"], link := none } =
      { initState 2025 with current_month_name := some "May",
                            current_year := 2024 } ∧
    parse_date "7".data (some "May") 2024 = .ok ⟨2024, 5, 7⟩ := by
  refine ⟨fun fy => rfl, by decide, by decide⟩

/-! ### C7: the tracker's year -/

theorem digitVal_le_nine {c : Char} (hc : c.isDigit = true) : digitVal c ≤ 9 := by
  simp [Char.isDigit] at hc
  obtain ⟨h1, h2⟩ := hc
  have h1' : 48 ≤ c.toNat := h1
  have h2' : c.toNat ≤ 57 := h2
  unfold digitVal
  have h0 : '0'.toNat = 48 := rfl
  omega

/-- A found `\b20\d{2}\b` year lies in 2000..2099. -/
theorem findYear20xx_bounds :
    ∀ fuel prevW l y, findYear20xx fuel prevW l = some y →
      2000 ≤ y ∧ y ≤ 2099 := by
  intro fuel
  induction fuel with
  | zero => intro _ _ _ h; simp [findYear20xx] at h
  | succ n ih =>
    intro prevW l y h
    cases l with
    | nil => simp [findYear20xx] at h
    | cons c cs =>
      unfold findYear20xx at h
      split at h
      · split at h
        · split at h
          · rename_i hdig
            have h1 := digitVal_le_nine hdig.1
            have h2 := digitVal_le_nine hdig.2.1
            simp only [Option.some.injEq] at h
            omega
          · exact ih _ _ _ h
        · exact ih _ _ _ h
      · exact ih _ _ _ h

theorem searchYear_bounds {l : List Char} {y : Nat}
    (h : searchYear l = some y) : 2000 ≤ y ∧ y ≤ 2099 :=
  findYear20xx_bounds _ _ _ _ h

/-- A date accepted by `mkValidDate` has a `datetime`-valid year. -/
theorem mkValidDate_year_bounds {y m d : Nat} {dt : Date}
    (h : mkValidDate y m d = some dt) : 1 ≤ y ∧ y ≤ 9999 := by
  unfold mkValidDate at h
  split at h
  · rename_i hb; exact ⟨hb.1, hb.2.1⟩
  · exact absurd h (by simp)

/-- The year of a `%B %Y` / `%b %Y` parse is `datetime`-valid. -/
theorem fmtMonthYear_year_bounds {tbl : List (Nat × List Char)}
    {cs : List Char} {m y : Nat} (h : fmtMonthYear tbl cs = some (m, y)) :
    1 ≤ y ∧ y ≤ 9999 := by
  unfold fmtMonthYear at h
  cases hr : runP (pSeq (pSeq (pMonthName tbl) pSpaces) pYear4) cs with
  | none => rw [hr] at h; simp at h
  | some v =>
    obtain ⟨⟨m', u⟩, y'⟩ := v
    rw [hr] at h
    have h' : Option.map (fun _ => (m', y')) (mkValidDate y' m' 1) =
        some (m, y) := h
    cases hv : mkValidDate y' m' 1 with
    | none => rw [hv] at h'; simp at h'
    | some d =>
      rw [hv] at h'
      simp at h'
      obtain ⟨_, hy⟩ := h'
      subst hy
      exact mkValidDate_year_bounds hv

/-- The token loop returns the searched `20\d{2}` year or the fallback. -/
theorem monthTokenScan_year {fy : Nat} {s : List Char} {mn : String} {y : Nat} :
    ∀ toks, monthTokenScan fy s toks = some (mn, y) →
      y = (searchYear s).getD fy := by
  intro toks
  induction toks with
  | nil => intro h; simp [monthTokenScan] at h
  | cons t rest ih =>
    intro h
    unfold monthTokenScan at h
    split at h
    · exact ih h
    · split at h
      · simp only [Option.some.injEq, Prod.mk.injEq] at h
        exact h.2.symm
      · split at h
        · simp only [Option.some.injEq, Prod.mk.injEq] at h
          exact h.2.symm
        · exact ih h

/-- The year returned by `extract_month_and_year` is the fallback or a
`datetime`-valid year (1..9999). -/
theorem extract_month_and_year_year (t : List Char) (fy : Nat) :
    (extract_month_and_year t fy).2 = fy ∨
      (1 ≤ (extract_month_and_year t fy).2 ∧
       (extract_month_and_year t fy).2 ≤ 9999) := by
  unfold extract_month_and_year
  split
  · exact Or.inl rfl
  · split
    · rename_i heq
      exact Or.inr (fmtMonthYear_year_bounds heq)
    · split
      · rename_i heq
        exact Or.inr (fmtMonthYear_year_bounds heq)
      · split
        · rename_i heq
          have := monthTokenScan_year _ heq
          cases hs : searchYear (sanitizeHeading t) with
          | none => rw [hs] at this; simp at this; exact Or.inl this
          | some v =>
            rw [hs] at this
            simp only [Option.getD_some] at this
            have hb := searchYear_bounds hs
            right
            simp only [this]
            omega
        · split
          · rename_i heq
            have hb := searchYear_bounds heq
            right
            constructor <;> [omega; omega]
          · exact Or.inl rfl

/-- One tracker update keeps the year or replaces it by a valid one. -/
theorem updateTracker_year (p : Option String × Nat) (text : String) :
    (updateTracker p text).2 = p.2 ∨
      (1 ≤ (updateTracker p text).2 ∧ (updateTracker p text).2 ≤ 9999) := by
  have h := extract_month_and_year_year text.data p.2
  unfold updateTracker
  cases hE : extract_month_and_year text.data p.2 with
  | mk mc yc =>
    rw [hE] at h
    simp only [hE]
    split
    · exact h
    · exact Or.inl rfl

/-- A heading row's whole `strong`-text fold keeps the year or replaces it
by a valid one. -/
theorem foldl_updateTracker_year (texts : List String) :
    ∀ p : Option String × Nat,
      (texts.foldl updateTracker p).2 = p.2 ∨
        (1 ≤ (texts.foldl updateTracker p).2 ∧
         (texts.foldl updateTracker p).2 ≤ 9999) := by
  induction texts with
  | nil => intro p; exact Or.inl rfl
  | cons t ts ih =>
    intro p
    have h1 := updateTracker_year p t
    have h2 := ih (updateTracker p t)
    simp only [List.foldl_cons]
    rcases h2 with h2 | h2
    · rw [h2]; exact h1
    · exact Or.inr h2

/-- A `.heading` outcome carries exactly the `strong`-text fold of the
incoming tracker state. -/
theorem classifyRow_heading_inv {st : MainState} {row : Row}
    {m : Option String} {y : Nat} (h : classifyRow st row = .heading m y) :
    m = (row.strongTexts.foldl updateTracker
          (st.current_month_name, st.current_year)).1 ∧
    y = (row.strongTexts.foldl updateTracker
          (st.current_month_name, st.current_year)).2 := by
  unfold classifyRow at h
  split at h
  · exact absurd h (by simp)
  · split at h
    · simp only [RowOutcome.heading.injEq] at h
      exact ⟨h.1.symm, h.2.symm⟩
    · split at h
      · exact absurd h (by simp)
      · split at h
        · exact absurd h (by simp)
        · split at h
          · exact absurd h (by simp)
          · split at h
            · exact absurd h (by simp)
            · split at h
              · exact absurd h (by simp)
              · exact absurd h (by simp)

/-- One row keeps the year or replaces it by a valid one. -/
theorem processRow_year (st : MainState) (row : Row) :
    (processRow st row).current_year = st.current_year ∨
      (1 ≤ (processRow st row).current_year ∧
       (processRow st row).current_year ≤ 9999) := by
  unfold processRow
  cases hc : classifyRow st row with
  | skipSilent => exact Or.inl rfl
  | heading m y =>
    obtain ⟨hm, hy⟩ := classifyRow_heading_inv hc
    subst hy
    have := foldl_updateTracker_year row.strongTexts
      (st.current_month_name, st.current_year)
    simpa using this
  | skipLogged msg => exact Or.inl rfl
  | success ev => exact Or.inl rfl

/-- Is a row outcome a heading-row outcome? -/
def isHeadingOutcome : RowOutcome → Bool
  | .heading _ _ => true
  | _ => false

/-- One tracker update installs exactly the year `extract_month_and_year`
returns for the heading text (the source's `if year_candidate !=
current_year` assignment always leaves `year_candidate` in place). -/
theorem updateTracker_year_eq (p : Option String × Nat) (text : String) :
    (updateTracker p text).2 = (extract_month_and_year text.data p.2).2 := by
  unfold updateTracker
  cases hE : extract_month_and_year text.data p.2 with
  | mk mc yc =>
    simp only [hE]
    split
    · rfl
    · rename_i hne
      simp at hne
      exact hne.symm

/-- C7 (amended): the tracker's year is initialized to the current calendar
year and is only ever replaced via heading rows — a non-heading row never
changes it, a heading row installs exactly the `updateTracker` fold over its
`strong` texts, and each fold step's year is exactly the year
`extract_month_and_year` reads from that heading text (with the evolving
year as fallback).  Every extracted year is the fallback or lies in
`datetime`'s valid range 1..9999, so at every point of a run the year is
the initial value or a value in 1..9999 — but a `Month Year` heading can
install a year below 1000 (not 4-digit), so the spec's "always a 4-digit
value in a plausible range" does not hold. -/
theorem c7_year_invariant (y0 : Nat) (rows : List Row) :
    (∀ (st : MainState) (row : Row),
      isHeadingOutcome (classifyRow st row) = false →
        (processRow st row).current_year = st.current_year) ∧
    (∀ (st : MainState) (row : Row) (m : Option String) (y : Nat),
      classifyRow st row = .heading m y →
        y = (row.strongTexts.foldl updateTracker
              (st.current_month_name, st.current_year)).2) ∧
    (∀ (p : Option String × Nat) (text : String),
      (updateTracker p text).2 = (extract_month_and_year text.data p.2).2) ∧
    (∀ (text : List Char) (fy : Nat),
      (extract_month_and_year text fy).2 = fy ∨
        (1 ≤ (extract_month_and_year text fy).2 ∧
         (extract_month_and_year text fy).2 ≤ 9999)) ∧
    ((processRows (initState y0) rows).current_year = y0 ∨
      (1 ≤ (processRows (initState y0) rows).current_year ∧
       (processRows (initState y0) rows).current_year ≤ 9999)) := by
  refine ⟨?_, ?_, updateTracker_year_eq, extract_month_and_year_year, ?_⟩
  · intro st row hh
    unfold processRow
    cases hc : classifyRow st row with
    | skipSilent => rfl
    | heading m y => rw [hc] at hh; exact absurd hh (by simp [isHeadingOutcome])
    | skipLogged msg => rfl
    | success ev => rfl
  · intro st row m y h
    exact (classifyRow_heading_inv h).2
  · suffices h : ∀ rs (st : MainState),
        (processRows st rs).current_year = st.current_year ∨
          (1 ≤ (processRows st rs).current_year ∧
           (processRows st rs).current_year ≤ 9999) by
      exact h rows (initState y0)
    intro rs
    induction rs with
    | nil => intro st; exact Or.inl rfl
    | cons r rs ih =>
      intro st
      have h1 := processRow_year st r
      have h2 := ih (processRow st r)
      simp only [processRows, List.foldl_cons] at h2 ⊢
      rcases h2 with h2 | h2
      · rw [h2]; exact h1
      · exact Or.inr h2

/-- C7 witness: the non-heading conjunct at a data row (year untouched) and
the heading conjunct at the `"May 0123"` heading (year replaced by the
extracted 123). -/
theorem c7_witness :
    (processRow (initState 2026)
        { cells := [["5y"]], strongTexts := [], link := none }).current_year =
      (initState 2026).current_year ∧
    (123 : Nat) =
      ((["May 0123"] : List String).foldl updateTracker
        ((initState 2026).current_month_name,
         (initState 2026).current_year)).2 :=
  ⟨(c7_year_invariant 2026 []).1 (initState 2026)
      { cells := [["5y"]], strongTexts := [], link := none } (by decide),
   (c7_year_invariant 2026 []).2.1 (initState 2026)
      { cells := [[]], strongTexts := ["May 0123"], link := none }
      (some "May") 123 (by decide)⟩

/-- C7 counterexample: the heading `"May 0123"` (a `Month Year` parse with
`%Y` matching `0123`) replaces the year by 123, which is not a 4-digit
value. -/
theorem c7_counterexample :
    (processRows (initState 2026)
        [{ cells := [[]], strongTexts := ["May 0123"], link := none }]).current_year
      = 123 ∧ ¬ (1000 ≤ 123) :=
  ⟨by decide, by decide⟩

/-! ### C8: per-row failures are isolated; count equals successes -/

theorem processRows_nil (st : MainState) : processRows st [] = st := rfl

theorem processRows_cons (st : MainState) (r : Row) (rs : List Row) :
    processRows st (r :: rs) = processRows (processRow st r) rs := rfl

/-- Successfully parsed data rows along a run, row by row on the evolving
state. -/
def countSuccesses : MainState → List Row → Nat
  | _, [] => 0
  | st, r :: rs =>
    (match classifyRow st r with
     | .success _ => 1
     | _ => 0) + countSuccesses (processRow st r) rs

/-- Rows skipped with a recorded reason along a run. -/
def countLogged : MainState → List Row → Nat
  | _, [] => 0
  | st, r :: rs =>
    (match classifyRow st r with
     | .skipLogged _ => 1
     | _ => 0) + countLogged (processRow st r) rs

theorem processRow_created (st : MainState) (r : Row) :
    (processRow st r).created_events =
      st.created_events +
        (match classifyRow st r with
         | .success _ => 1
         | _ => 0) := by
  unfold processRow
  cases classifyRow st r <;> simp

theorem processRow_events_len (st : MainState) (r : Row) :
    (processRow st r).events.length =
      st.events.length +
        (match classifyRow st r with
         | .success _ => 1
         | _ => 0) := by
  unfold processRow
  cases classifyRow st r <;> simp

theorem processRow_skipped_len (st : MainState) (r : Row) :
    (processRow st r).skipped_details.length =
      st.skipped_details.length +
        (match classifyRow st r with
         | .skipLogged _ => 1
         | _ => 0) := by
  unfold processRow
  cases classifyRow st r <;> simp

theorem processRows_created : ∀ (rows : List Row) (st : MainState),
    (processRows st rows).created_events =
      st.created_events + countSuccesses st rows := by
  intro rows
  induction rows with
  | nil => intro st; simp [processRows_nil, countSuccesses]
  | cons r rs ih =>
    intro st
    rw [processRows_cons, ih (processRow st r), processRow_created,
      show countSuccesses st (r :: rs) =
        (match classifyRow st r with
         | .success _ => 1
         | _ => 0) + countSuccesses (processRow st r) rs from rfl]
    omega

theorem processRows_events_len : ∀ (rows : List Row) (st : MainState),
    (processRows st rows).events.length =
      st.events.length + countSuccesses st rows := by
  intro rows
  induction rows with
  | nil => intro st; simp [processRows_nil, countSuccesses]
  | cons r rs ih =>
    intro st
    rw [processRows_cons, ih (processRow st r), processRow_events_len,
      show countSuccesses st (r :: rs) =
        (match classifyRow st r with
         | .success _ => 1
         | _ => 0) + countSuccesses (processRow st r) rs from rfl]
    omega

theorem processRows_skipped_len : ∀ (rows : List Row) (st : MainState),
    (processRows st rows).skipped_details.length =
      st.skipped_details.length + countLogged st rows := by
  intro rows
  induction rows with
  | nil => intro st; simp [processRows_nil, countLogged]
  | cons r rs ih =>
    intro st
    rw [processRows_cons, ih (processRow st r), processRow_skipped_len,
      show countLogged st (r :: rs) =
        (match classifyRow st r with
         | .skipLogged _ => 1
         | _ => 0) + countLogged (processRow st r) rs from rfl]
    omega

/-- C8: every run completes as a total fold in which a logged per-row
failure only appends its human-readable reason and leaves the rest of the
state untouched, processing continues with the next row, and the reported
event count equals the number of successfully parsed data rows (also equal
to the number of accumulated events). -/
theorem c8_row_failures_isolated (y0 : Nat) (rows : List Row) :
    (processRows (initState y0) rows).created_events =
      countSuccesses (initState y0) rows ∧
    (processRows (initState y0) rows).events.length =
      (processRows (initState y0) rows).created_events ∧
    (processRows (initState y0) rows).skipped_details.length =
      countLogged (initState y0) rows ∧
    (∀ st r msg, classifyRow st r = .skipLogged msg →
      processRow st r =
        { st with skipped_details := st.skipped_details ++ [msg] }) ∧
    ∀ (st : MainState) (r : Row) (rs : List Row),
      processRows st (r :: rs) = processRows (processRow st r) rs := by
  refine ⟨?_, ?_, ?_, ?_, fun st r rs => rfl⟩
  · have h := processRows_created rows (initState y0)
    simpa [initState] using h
  · have h1 := processRows_created rows (initState y0)
    have h2 := processRows_events_len rows (initState y0)
    rw [show (initState y0).created_events = 0 from rfl] at h1
    rw [show (initState y0).events = [] from rfl] at h2
    simp only [List.length_nil] at h2
    omega
  · have h := processRows_skipped_len rows (initState y0)
    simpa [initState] using h
  · intro st r msg hc
    unfold processRow
    rw [hc]

/-- C8 witness: the skip-isolation conjunct applied to a row whose date
fails to parse. -/
theorem c8_witness :
    processRow (initState 2026)
        { cells := [["5x"]], strongTexts := [], link := none } =
      { initState 2026 with
          skipped_details :=
            ["date parse failed for 5x: Unable to parse date 5x"] } :=
  (c8_row_failures_isolated 2026 []).2.2.2.1 (initState 2026)
    { cells := [["5x"]], strongTexts := [], link := none }
    "date parse failed for 5x: Unable to parse date 5x" (by decide)

/-! ### C9: the Duration line denotes end minus start -/

/-- `10^(number of digits of n)` (companion to `natChars`). -/
def tenPow (n : Nat) : Nat :=
  if _h : n < 10 then 10 else tenPow (n / 10) * 10
decreasing_by exact Nat.div_lt_self (by omega) (by omega)

/-- Numeric reading of a digit string (the denotation of the digits
`format_duration` prints). -/
def readNat (l : List Char) : Nat :=
  l.foldl (fun a c => a * 10 + digitVal c) 0

/-- Denotation, following the spec's words (not a source function): the
minutes one `"{n}h"` / `"{n}m"` part of the duration text stands for. -/
def duration_part_value (part : List Char) : Option Int :=
  if part.getLast? = some 'h' then
    if part.dropLast ≠ [] ∧ part.dropLast.all Char.isDigit then
      some (60 * (readNat part.dropLast : Int))
    else none
  else if part.getLast? = some 'm' then
    if part.dropLast ≠ [] ∧ part.dropLast.all Char.isDigit then
      some ((readNat part.dropLast : Int))
    else none
  else none

def duration_text_value_list : List (List Char) → Option Int
  | [] => some 0
  | p :: ps =>
    match duration_part_value p, duration_text_value_list ps with
    | some v, some rest => some (v + rest)
    | _, _ => none

/-- Denotation, following the spec's words (not a source function): the
total number of minutes a `"Xh Ym"`-style duration text stands for (`none`
when malformed). -/
def duration_text_value (cs : List Char) : Option Int :=
  duration_text_value_list (splitOnChar ' ' cs)

/-- `c ≠ '\n'`, the predicate of `lastLine`. -/
def notNL (c : Char) : Bool := c ≠ '\n'

/-- The text after the last newline (the last line of a description). -/
def lastLine (cs : List Char) : List Char :=
  (cs.reverse.takeWhile notNL).reverse

theorem digitVal_digitChar {k : Nat} (hk : k < 10) :
    digitVal (Nat.digitChar k) = k := by
  interval_cases k <;> decide

theorem digitChar_isDigit {k : Nat} (hk : k < 10) :
    (Nat.digitChar k).isDigit = true := by
  interval_cases k <;> decide

/-- With sufficient fuel, the digit writer is independent of the fuel and
folds back to the number it prints. -/
theorem natCharsAux_foldl : ∀ (fuel n acc : Nat), n < fuel →
    (natCharsAux fuel n).foldl (fun a c => a * 10 + digitVal c) acc =
      acc * tenPow n + n := by
  intro fuel
  induction fuel with
  | zero => intro n acc h; omega
  | succ f ih =>
    intro n acc h
    by_cases h10 : n < 10
    · rw [show natCharsAux (f + 1) n = [Nat.digitChar n] from by
        unfold natCharsAux
        simp [h10]]
      rw [show tenPow n = 10 from by
        conv_lhs => rw [tenPow]
        simp [h10]]
      simp [digitVal_digitChar h10]
    · rw [show natCharsAux (f + 1) n =
          natCharsAux f (n / 10) ++ [Nat.digitChar (n % 10)] from by
        conv_lhs => rw [natCharsAux]
        simp [h10]]
      rw [show tenPow n = tenPow (n / 10) * 10 from by
        conv_lhs => rw [tenPow]
        simp [h10]]
      rw [List.foldl_append]
      have hlt : n / 10 < f := by
        have := Nat.div_lt_self (show 0 < n by omega) (show 1 < 10 by omega)
        omega
      rw [ih (n / 10) acc hlt]
      simp only [List.foldl_cons, List.foldl_nil]
      rw [digitVal_digitChar (Nat.mod_lt _ (by omega))]
      have hmul : acc * (tenPow (n / 10) * 10) = acc * tenPow (n / 10) * 10 := by
        ring
      rw [hmul]
      omega

theorem readNat_natChars (n : Nat) : readNat (natChars n) = n := by
  unfold readNat natChars
  rw [natCharsAux_foldl (n + 1) n 0 (by omega)]
  omega

theorem natCharsAux_all_digit :
    ∀ (fuel n : Nat) {c : Char}, c ∈ natCharsAux fuel n → c.isDigit = true := by
  intro fuel
  induction fuel with
  | zero => intro n c hc; simp [natCharsAux] at hc
  | succ f ih =>
    intro n c hc
    by_cases h10 : n < 10
    · rw [show natCharsAux (f + 1) n = [Nat.digitChar n] from by
        unfold natCharsAux
        simp [h10]] at hc
      simp at hc
      subst hc
      exact digitChar_isDigit h10
    · rw [show natCharsAux (f + 1) n =
          natCharsAux f (n / 10) ++ [Nat.digitChar (n % 10)] from by
        conv_lhs => rw [natCharsAux]
        simp [h10]] at hc
      rw [List.mem_append] at hc
      rcases hc with hc | hc
      · exact ih (n / 10) hc
      · simp at hc
        subst hc
        exact digitChar_isDigit (Nat.mod_lt _ (by omega))

theorem natChars_all_digit (n : Nat) {c : Char} (hc : c ∈ natChars n) :
    c.isDigit = true :=
  natCharsAux_all_digit (n + 1) n hc

theorem natChars_ne_nil (n : Nat) : natChars n ≠ [] := by
  unfold natChars natCharsAux
  split
  · simp
  · simp

theorem isDigit_ne {c : Char} (hc : c.isDigit = true) :
    c ≠ '\n' ∧ c ≠ ' ' := by
  refine ⟨?_, ?_⟩ <;> rintro rfl <;> exact absurd hc (by decide)

theorem intChars_nonneg {i : Int} (h : 0 ≤ i) : intChars i = natChars i.toNat := by
  unfold intChars
  simp [Int.not_lt.mpr h]

theorem intChars_nonneg_digit {v : Int} (hv : 0 ≤ v) {c : Char}
    (hc : c ∈ intChars v) : c.isDigit = true := by
  rw [intChars_nonneg hv] at hc
  exact natChars_all_digit _ hc

theorem splitOnChar_no_sep {sep : Char} :
    ∀ {l : List Char}, (∀ c ∈ l, c ≠ sep) → splitOnChar sep l = [l] := by
  intro l
  induction l with
  | nil => intro _; rfl
  | cons c cs ih =>
    intro h
    have hc : c ≠ sep := h c (by simp)
    have ih' := ih fun x hx => h x (by simp [hx])
    unfold splitOnChar at ih' ⊢
    rw [List.foldr_cons, ih']
    simp [hc]

theorem splitOnChar_append_sep {sep : Char} :
    ∀ (a b : List Char), (∀ c ∈ a, c ≠ sep) → (∀ c ∈ b, c ≠ sep) →
      splitOnChar sep (a ++ sep :: b) = [a, b] := by
  intro a
  induction a with
  | nil =>
    intro b _ hb
    have hb' := splitOnChar_no_sep hb
    unfold splitOnChar at hb' ⊢
    rw [List.nil_append, List.foldr_cons, hb']
    simp
  | cons c a' ih =>
    intro b ha hb
    have hc : c ≠ sep := ha c (by simp)
    have ih' := ih b (fun x hx => ha x (by simp [hx])) hb
    unfold splitOnChar at ih' ⊢
    rw [List.cons_append, List.foldr_cons, ih']
    simp [hc]

theorem takeWhile_append_stop {p : Char → Bool} {x : Char} (hx : p x = false) :
    ∀ (u v : List Char), (u ++ x :: v).takeWhile p = u.takeWhile p := by
  intro u
  induction u with
  | nil => intro v; simp [List.takeWhile_cons, hx]
  | cons c u' ih =>
    intro v
    simp only [List.cons_append, List.takeWhile_cons]
    cases hpc : p c
    · simp
    · simp [ih]

theorem takeWhile_all {p : Char → Bool} :
    ∀ {l : List Char}, (∀ c ∈ l, p c = true) → l.takeWhile p = l := by
  intro l
  induction l with
  | nil => intro _; rfl
  | cons c cs ih =>
    intro h
    rw [List.takeWhile_cons, if_pos (h c (by simp)), ih fun x hx => h x (by simp [hx])]

theorem lastLine_append_newline (a b : List Char) :
    lastLine (a ++ '\n' :: b) = lastLine b := by
  unfold lastLine
  rw [List.reverse_append, List.reverse_cons, List.append_assoc,
    List.singleton_append,
    takeWhile_append_stop (by decide) b.reverse a.reverse]

theorem lastLine_no_newline {b : List Char} (hb : '\n' ∉ b) : lastLine b = b := by
  have hall : ∀ c ∈ b.reverse, notNL c = true := by
    intro c hc
    have hcb : c ∈ b := List.mem_reverse.mp hc
    simp only [notNL, decide_eq_true_eq]
    rintro rfl
    exact hb hcb
  unfold lastLine
  rw [takeWhile_all hall, List.reverse_reverse]

theorem joinSep_cons_of_ne_nil (sep : Char) (x : List Char)
    {xs : List (List Char)} (h : xs ≠ []) :
    joinSep sep (x :: xs) = x ++ sep :: joinSep sep xs := by
  cases xs with
  | nil => exact absurd rfl h
  | cons z zs => rfl

theorem lastLine_joinSep_concat :
    ∀ (cs : List (List Char)) (last : List Char), '\n' ∉ last →
      lastLine (joinSep '\n' (cs ++ [last])) = last := by
  intro cs
  induction cs with
  | nil =>
    intro last h
    rw [List.nil_append, show joinSep '\n' [last] = last from rfl]
    exact lastLine_no_newline h
  | cons c cs' ih =>
    intro last h
    rw [List.cons_append, joinSep_cons_of_ne_nil '\n' c (by simp),
      lastLine_append_newline]
    exact ih last h

/-- Reading back one `"{v}h"` part gives 60·v. -/
theorem duration_part_value_h {v : Int} (hv : 0 ≤ v) :
    duration_part_value (intChars v ++ ['h']) = some (60 * v) := by
  unfold duration_part_value
  rw [List.getLast?_concat, List.dropLast_concat, intChars_nonneg hv]
  rw [if_pos rfl]
  rw [if_pos ⟨natChars_ne_nil _, by
    rw [List.all_eq_true]
    intro c hc
    exact natChars_all_digit _ hc⟩]
  rw [readNat_natChars, Int.toNat_of_nonneg hv]

/-- Reading back one `"{v}m"` part gives v. -/
theorem duration_part_value_m {v : Int} (hv : 0 ≤ v) :
    duration_part_value (intChars v ++ ['m']) = some v := by
  unfold duration_part_value
  rw [List.getLast?_concat, List.dropLast_concat, intChars_nonneg hv]
  rw [if_neg (by decide), if_pos rfl]
  rw [if_pos ⟨natChars_ne_nil _, by
    rw [List.all_eq_true]
    intro c hc
    exact natChars_all_digit _ hc⟩]
  rw [readNat_natChars, Int.toNat_of_nonneg hv]

/-- The characters of a non-negative `"{v}h"`/`"{v}m"` part are digits plus
the trailing unit letter — never a space or a newline. -/
theorem unit_part_chars {v : Int} (hv : 0 ≤ v) {u c : Char}
    (hc : c ∈ intChars v ++ [u]) : c.isDigit = true ∨ c = u := by
  rw [List.mem_append] at hc
  rcases hc with hc | hc
  · exact Or.inl (intChars_nonneg_digit hv hc)
  · simp at hc
    exact Or.inr hc

/-- C9 roundtrip: for a positive whole-minute duration, the text
`format_duration` prints denotes exactly that duration. -/
theorem duration_roundtrip {d : Int} (hd : 0 < d) :
    duration_text_value (format_duration d) = some d := by
  have hm0 : 0 ≤ d.emod 60 := Int.emod_nonneg d (by norm_num)
  have hm60 : d.emod 60 < 60 := Int.emod_lt_of_pos d (by norm_num)
  have hdm : 60 * d.ediv 60 + d.emod 60 = d := Int.ediv_add_emod d 60
  have hh0 : 0 ≤ d.ediv 60 := Int.ediv_nonneg (le_of_lt hd) (by norm_num)
  have hnsp_m : ∀ c ∈ intChars (d.emod 60) ++ ['m'], c ≠ ' ' := by
    intro c hc
    rcases unit_part_chars hm0 hc with h | h
    · exact (isDigit_ne h).2
    · subst h; decide
  have hnsp_h : ∀ c ∈ intChars (d.ediv 60) ++ ['h'], c ≠ ' ' := by
    intro c hc
    rcases unit_part_chars hh0 hc with h | h
    · exact (isDigit_ne h).2
    · subst h; decide
  unfold format_duration format_duration_parts duration_text_value
  by_cases hh : d.ediv 60 = 0
  · have hm : d.emod 60 ≠ 0 := by omega
    rw [if_neg (by simp [hh]), if_pos (Or.inl hm), List.nil_append]
    rw [show joinSep ' ' [intChars (d.emod 60) ++ ['m']] =
      intChars (d.emod 60) ++ ['m'] from rfl]
    rw [splitOnChar_no_sep hnsp_m]
    unfold duration_text_value_list
    rw [duration_part_value_m hm0]
    rw [show duration_text_value_list [] = some 0 from rfl]
    simp
    omega
  · by_cases hm : d.emod 60 = 0
    · rw [if_pos hh, if_neg (by simp [hm, hh]), List.append_nil]
      rw [show joinSep ' ' [intChars (d.ediv 60) ++ ['h']] =
        intChars (d.ediv 60) ++ ['h'] from rfl]
      rw [splitOnChar_no_sep hnsp_h]
      unfold duration_text_value_list
      rw [duration_part_value_h hh0]
      rw [show duration_text_value_list [] = some 0 from rfl]
      simp
      omega
    · rw [if_pos hh, if_pos (Or.inl hm)]
      rw [show ([intChars (d.ediv 60) ++ ['h']] ++
          [intChars (d.emod 60) ++ ['m']]) =
        [intChars (d.ediv 60) ++ ['h'], intChars (d.emod 60) ++ ['m']] from rfl]
      rw [show joinSep ' '
          [intChars (d.ediv 60) ++ ['h'], intChars (d.emod 60) ++ ['m']] =
        (intChars (d.ediv 60) ++ ['h']) ++ ' ' ::
          (intChars (d.emod 60) ++ ['m']) from rfl]
      rw [splitOnChar_append_sep _ _ hnsp_h hnsp_m]
      unfold duration_text_value_list
      rw [duration_part_value_h hh0]
      unfold duration_text_value_list
      rw [duration_part_value_m hm0]
      rw [show duration_text_value_list [] = some 0 from rfl]
      simp
      omega

/-- Every character of a joined list is the separator or a character of a
part. -/
theorem mem_joinSep {sep c : Char} :
    ∀ {l : List (List Char)}, c ∈ joinSep sep l → c = sep ∨ ∃ p ∈ l, c ∈ p := by
  intro l
  induction l with
  | nil => intro h; exact absurd h (by simp [joinSep])
  | cons x xs ih =>
    intro h
    cases xs with
    | nil => exact Or.inr ⟨x, by simp, h⟩
    | cons z zs =>
      rw [joinSep_cons_of_ne_nil sep x (by simp)] at h
      rw [List.mem_append] at h
      rcases h with h | h
      · exact Or.inr ⟨x, by simp, h⟩
      · rcases List.mem_cons.mp h with h | h
        · exact Or.inl h
        · rcases ih h with h | ⟨p, hp, hcp⟩
          · exact Or.inl h
          · exact Or.inr ⟨p, by simp [hp], hcp⟩

/-- Every part `format_duration` prints is an hours part or a minutes
part. -/
theorem format_duration_parts_shape (d : Int) :
    ∀ p ∈ format_duration_parts d,
      p = intChars (d.ediv 60) ++ ['h'] ∨ p = intChars (d.emod 60) ++ ['m'] := by
  intro p hp
  unfold format_duration_parts at hp
  rw [List.mem_append] at hp
  rcases hp with hp | hp
  · by_cases h : d.ediv 60 ≠ 0
    · rw [if_pos h] at hp
      simp at hp
      exact Or.inl hp
    · rw [if_neg h] at hp
      exact absurd hp (by simp)
  · by_cases h2 : d.emod 60 ≠ 0 ∨
        (if d.ediv 60 ≠ 0 then [intChars (d.ediv 60) ++ ['h']]
         else ([] : List (List Char))) = []
    · rw [if_pos h2] at hp
      simp at hp
      exact Or.inr hp
    · rw [if_neg h2] at hp
      exact absurd hp (by simp)

/-- `format_duration` never prints an empty string. -/
theorem format_duration_ne_nil (d : Int) : format_duration d ≠ [] := by
  unfold format_duration format_duration_parts
  by_cases hh : d.ediv 60 ≠ 0
  · rw [if_pos hh]
    by_cases hm : d.emod 60 = 0
    · rw [if_neg (by simp [hm])]
      simp [joinSep]
    · rw [if_pos (Or.inl hm)]
      simp [joinSep]
  · rw [if_neg hh]
    rw [if_pos (Or.inr rfl)]
    simp [joinSep]

/-- `format_duration` of a positive duration never prints a newline. -/
theorem format_duration_no_newline {d : Int} (hd : 0 < d) :
    '\n' ∉ format_duration d := by
  intro hmem
  have hm0 : 0 ≤ d.emod 60 := Int.emod_nonneg d (by norm_num)
  have hh0 : 0 ≤ d.ediv 60 := Int.ediv_nonneg (le_of_lt hd) (by norm_num)
  unfold format_duration at hmem
  rcases mem_joinSep hmem with h | ⟨p, hp, hcp⟩
  · exact absurd h (by decide)
  · rcases format_duration_parts_shape d p hp with rfl | rfl
    · rcases unit_part_chars hh0 hcp with h | h
      · exact absurd h (by decide)
      · exact absurd h (by decide)
    · rcases unit_part_chars hm0 hcp with h | h
      · exact absurd h (by decide)
      · exact absurd h (by decide)

/-- The last line of a built description is the `Duration:` line (whenever
the duration text is non-empty and newline-free — `format_duration` output
always is). -/
theorem build_description_lastLine (sp v l : String) (dt : List Char)
    (h1 : dt ≠ []) (h2 : '\n' ∉ dt) :
    lastLine (build_description sp v l ⟨dt⟩).data = "Duration: ".data ++ dt := by
  unfold build_description
  rw [show (String.mk dt).data = dt from rfl]
  rw [if_neg h1]
  rw [show ((if sp.data = [] then [] else ["Speaker: ".data ++ sp.data]) ++
        (if v.data = [] then [] else ["Venue: ".data ++ v.data]) ++
        (if l.data = [] then [] else ["Link: ".data ++ l.data]) ++
        ["Duration: ".data ++ dt] : List (List Char)) =
      ((if sp.data = [] then [] else ["Speaker: ".data ++ sp.data]) ++
        (if v.data = [] then [] else ["Venue: ".data ++ v.data]) ++
        (if l.data = [] then [] else ["Link: ".data ++ l.data])) ++
        ["Duration: ".data ++ dt] from rfl]
  apply lastLine_joinSep_concat
  intro hmem
  rw [List.mem_append] at hmem
  rcases hmem with hmem | hmem
  · exact absurd hmem (by decide)
  · exact h2 hmem

/-- A `.success` outcome carries exactly the event assembled from the row's
parsed time range. -/
theorem classifyRow_success_inv {st : MainState} {row : Row} {ev : PEvent}
    (h : classifyRow st row = .success ev) :
    ∃ event_date s e,
      parse_time_components (rowTimeText row).data event_date = .ok (s, e) ∧
      ev = buildRowEvent row s e := by
  unfold classifyRow at h
  split at h
  · exact absurd h (by simp)
  · split at h
    · exact absurd h (by simp)
    · split at h
      · exact absurd h (by simp)
      · split at h
        · exact absurd h (by simp)
        · split at h
          · exact absurd h (by simp)
          · rename_i event_date heq_date
            split at h
            · exact absurd h (by simp)
            · split at h
              · exact absurd h (by simp)
              · rename_i s e heq_time
                simp only [RowOutcome.success.injEq] at h
                exact ⟨event_date, s, e, heq_time, h.symm⟩

/-- Fold invariant: every accumulated event carries the `Duration:` line of
its own end-minus-start and has positive duration. -/
theorem processRows_events_inv : ∀ (rows : List Row) (st : MainState),
    (∀ ev ∈ st.events,
      lastLine ev.description.data =
        "Duration: ".data ++ format_duration (ev.«end» - ev.begin) ∧
      0 < ev.«end» - ev.begin) →
    ∀ ev ∈ (processRows st rows).events,
      lastLine ev.description.data =
        "Duration: ".data ++ format_duration (ev.«end» - ev.begin) ∧
      0 < ev.«end» - ev.begin := by
  intro rows
  induction rows with
  | nil => intro st h; simpa [processRows_nil] using h
  | cons r rs ih =>
    intro st h
    rw [processRows_cons]
    apply ih
    intro ev hev
    unfold processRow at hev
    cases hc : classifyRow st r with
    | skipSilent => rw [hc] at hev; exact h ev hev
    | heading m y => simp only [hc] at hev; exact h ev hev
    | skipLogged msg => simp only [hc] at hev; exact h ev hev
    | success ev0 =>
      simp only [hc] at hev
      rcases List.mem_append.mp hev with hev | hev
      · exact h ev hev
      · have hev' : ev = ev0 := by simpa using hev
        subst hev'
        obtain ⟨ed, s, e, hpt, hev0⟩ := classifyRow_success_inv hc
        subst hev0
        have hlt : s < e := parse_time_components_lt hpt
        have hpos : (0 : Int) < e - s := by omega
        constructor
        · show lastLine (buildRowEvent r s e).description.data = _
          unfold buildRowEvent
          have hb := build_description_lastLine (rowSpeaker r) (rowVenue r)
            (rowLink r) (format_duration (e - s))
            (format_duration_ne_nil _) (format_duration_no_newline hpos)
          exact hb
        · show (0 : Int) < (buildRowEvent r s e).«end» - (buildRowEvent r s e).begin
          unfold buildRowEvent
          exact hpos

/-- C9: for every event a run produces, its description's last line is the
literal `Duration:` line printed from end-minus-start, and that printed
duration text denotes exactly end-minus-start minutes. -/
theorem c9_duration_line (y0 : Nat) (rows : List Row) (ev : PEvent)
    (hev : ev ∈ (processRows (initState y0) rows).events) :
    lastLine ev.description.data =
      "Duration: ".data ++ format_duration (ev.«end» - ev.begin) ∧
    duration_text_value (format_duration (ev.«end» - ev.begin)) =
      some (ev.«end» - ev.begin) := by
  have h := processRows_events_inv rows (initState y0) (by simp [initState]) ev hev
  exact ⟨h.1, duration_roundtrip h.2⟩

def c9Rows : List Row :=
  [{ cells := [[]], strongTexts := ["May 2024"], link := none },
   { cells := [["7", "11 - 12"]], strongTexts := [], link := none }]

def c9Ev : PEvent :=
  { name := "Untitled Event"
    begin := mkDateTime ⟨2024, 5, 7⟩ 11 0
    «end» := mkDateTime ⟨2024, 5, 7⟩ 11 0 + 60
    description := "Venue: 7 11 - 12\nDuration: 1h"
    location := some "7 11 - 12"
    url := none }

/-- C9 witness: the claim applied to the single event of a concrete run. -/
theorem c9_witness :
    lastLine c9Ev.description.data =
      "Duration: ".data ++ format_duration (c9Ev.«end» - c9Ev.begin) ∧
    duration_text_value (format_duration (c9Ev.«end» - c9Ev.begin)) =
      some (c9Ev.«end» - c9Ev.begin) :=
  c9_duration_line 2026 c9Rows c9Ev (by
    have h : (processRows (initState 2026) c9Rows).events = [c9Ev] := by decide
    rw [h]
    simp)

end LifeSci
